import Mathlib

/-!
Shallow embedding of the endianness core of the repository
(`src/specs/int.rs`): the primitive byte-order conversions `from_be`,
`from_le`, `to_be`, `to_le` (the `PrimInt` capability, which the source
delegates to the Rust standard library, whose documented semantics is
"identity when the named order equals the host order, byte swap
otherwise"), and the two wrapper types `BigEndian<T>` and
`LittleEndian<T>` with their `ForeignEndian` operations, equality,
default and display behaviors.

Modelling choices: a fixed-width integer value is represented by its bit
pattern, a natural number below `256 ^ n` where `n` is the width in
bytes. Byte order only permutes bytes of the bit pattern, so one model
covers every supported width and signedness (u8..u128, i8..i128, usize,
isize). The host byte order, which in Rust is a compile-time property of
the target, is an explicit parameter `e : Endianness`.
-/

/-- Host byte order. Rust fixes this per target; here it is a parameter. -/
inductive Endianness where
  | big
  | little
deriving DecidableEq, Repr

/-- Little-endian byte decomposition of a bit pattern: `n` bytes, least
significant first. -/
def bytesOfNat : Nat → Nat → List Nat
  | 0, _ => []
  | n + 1, x => (x % 256) :: bytesOfNat n (x / 256)

/-- Recompose a little-endian byte list into a bit pattern. -/
def natOfBytes : List Nat → Nat
  | [] => 0
  | b :: bs => b + 256 * natOfBytes bs

/-- Reverse the `n` bytes of a bit pattern: the `swap_bytes` semantics of
the Rust standard library on an `n`-byte integer. -/
def swap_bytes (n x : Nat) : Nat :=
  natOfBytes (bytesOfNat n x).reverse

/-- `T::to_be` of the Rust standard library on an `n`-byte integer, with
host order `e`: identity on a big-endian host, byte swap otherwise.
Source: `impl_primint` maps `PrimInt::to_be` to this function. -/
def to_be (e : Endianness) (n x : Nat) : Nat :=
  match e with
  | .big => x
  | .little => swap_bytes n x

/-- `T::to_le` of the Rust standard library on an `n`-byte integer, with
host order `e`: identity on a little-endian host, byte swap otherwise.
Source: `impl_primint` maps `PrimInt::to_le` to this function. -/
def to_le (e : Endianness) (n x : Nat) : Nat :=
  match e with
  | .big => swap_bytes n x
  | .little => x

/-- `T::from_be` of the Rust standard library on an `n`-byte integer, with
host order `e`. Source: `impl_primint` maps `PrimInt::from_be` to this
function. -/
def from_be (e : Endianness) (n x : Nat) : Nat :=
  match e with
  | .big => x
  | .little => swap_bytes n x

/-- `T::from_le` of the Rust standard library on an `n`-byte integer, with
host order `e`. Source: `impl_primint` maps `PrimInt::from_le` to this
function. -/
def from_le (e : Endianness) (n x : Nat) : Nat :=
  match e with
  | .big => swap_bytes n x
  | .little => x

/-- The `BigEndian<T>` wrapper of `src/specs/int.rs`: a single field `raw`
holding the foreign-ordered bit pattern. -/
structure BigEndian where
  raw : Nat
deriving DecidableEq, Repr

/-- The `LittleEndian<T>` wrapper of `src/specs/int.rs`: a single field
`raw` holding the foreign-ordered bit pattern. -/
structure LittleEndian where
  raw : Nat
deriving DecidableEq, Repr

/-- `BigEndian::from_raw` (src/specs/int.rs line 160): wrap verbatim. -/
def BigEndian.from_raw (raw : Nat) : BigEndian :=
  { raw := raw }

/-- `BigEndian::to_raw` (src/specs/int.rs line 164): unwrap verbatim. -/
def BigEndian.to_raw (x : BigEndian) : Nat :=
  x.raw

/-- `BigEndian::from_native` (src/specs/int.rs line 168): the source
stores `native.to_le()` — note `to_le`, as written in the code. -/
def BigEndian.from_native (e : Endianness) (n native : Nat) : BigEndian :=
  { raw := to_le e n native }

/-- `BigEndian::to_native` (src/specs/int.rs line 172): the source
returns `T::from_le(self.raw)` — note `from_le`, as written in the code. -/
def BigEndian.to_native (e : Endianness) (n : Nat) (x : BigEndian) : Nat :=
  from_le e n x.raw

/-- `PartialEq for BigEndian<T>` (src/specs/int.rs line 212): compares
the stored raw values. -/
def BigEndian.beq (a b : BigEndian) : Bool :=
  a.raw == b.raw

/-- `Default for BigEndian<T>` (src/specs/int.rs line 182):
`from_native` of the native default, which is `0` for every primitive
integer. -/
def BigEndian.deflt (e : Endianness) (n : Nat) : BigEndian :=
  BigEndian.from_native e n 0

/-- `Display for BigEndian<T>` (src/specs/int.rs line 192): formats
`self.to_native()` with the wrapped type's own formatter. -/
def BigEndian.display (e : Endianness) (n : Nat) (x : BigEndian) : String :=
  toString (x.to_native e n)

/-- `LittleEndian::from_raw` (src/specs/int.rs line 262): wrap verbatim. -/
def LittleEndian.from_raw (raw : Nat) : LittleEndian :=
  { raw := raw }

/-- `LittleEndian::to_raw` (src/specs/int.rs line 266): unwrap verbatim. -/
def LittleEndian.to_raw (x : LittleEndian) : Nat :=
  x.raw

/-- `LittleEndian::from_native` (src/specs/int.rs line 270): stores
`native.to_le()`. -/
def LittleEndian.from_native (e : Endianness) (n native : Nat) : LittleEndian :=
  { raw := to_le e n native }

/-- `LittleEndian::to_native` (src/specs/int.rs line 274): returns
`T::from_le(self.raw)`. -/
def LittleEndian.to_native (e : Endianness) (n : Nat) (x : LittleEndian) : Nat :=
  from_le e n x.raw

/-- `PartialEq for LittleEndian<T>` (src/specs/int.rs line 314): compares
the stored raw values. -/
def LittleEndian.beq (a b : LittleEndian) : Bool :=
  a.raw == b.raw

/-- `Default for LittleEndian<T>` (src/specs/int.rs line 284):
`from_native` of the native default, which is `0`. -/
def LittleEndian.deflt (e : Endianness) (n : Nat) : LittleEndian :=
  LittleEndian.from_native e n 0

/-- `Display for LittleEndian<T>` (src/specs/int.rs line 294): formats
`self.to_native()` with the wrapped type's own formatter. -/
def LittleEndian.display (e : Endianness) (n : Nat) (x : LittleEndian) : String :=
  toString (x.to_native e n)

/-! Byte-level lemmas about the decomposition used by `swap_bytes`. -/

theorem bytesOfNat_length (n x : Nat) : (bytesOfNat n x).length = n := by
  induction n generalizing x with
  | zero => rfl
  | succ n ih => simp [bytesOfNat, ih]

theorem bytesOfNat_mem_lt (n x : Nat) : ∀ b ∈ bytesOfNat n x, b < 256 := by
  induction n generalizing x with
  | zero => intro b hb; simp [bytesOfNat] at hb
  | succ n ih =>
      intro b hb
      simp only [bytesOfNat, List.mem_cons] at hb
      rcases hb with hb | hb
      · subst hb; exact Nat.mod_lt _ (by norm_num)
      · exact ih _ b hb

theorem natOfBytes_bytesOfNat (n x : Nat) (h : x < 256 ^ n) :
    natOfBytes (bytesOfNat n x) = x := by
  induction n generalizing x with
  | zero =>
      simp [bytesOfNat, natOfBytes]
      omega
  | succ n ih =>
      have hdiv : x / 256 < 256 ^ n := by
        rw [Nat.div_lt_iff_lt_mul (by norm_num : 0 < 256)]
        calc x < 256 ^ (n + 1) := h
        _ = 256 ^ n * 256 := by rw [pow_succ]
      simp only [bytesOfNat, natOfBytes, ih (x / 256) hdiv]
      exact Nat.mod_add_div x 256

theorem bytesOfNat_natOfBytes (bs : List Nat) (h : ∀ b ∈ bs, b < 256) :
    bytesOfNat bs.length (natOfBytes bs) = bs := by
  induction bs with
  | nil => rfl
  | cons b bs ih =>
      have hb : b < 256 := h b (List.mem_cons_self b bs)
      have hmod : (b + 256 * natOfBytes bs) % 256 = b := by
        rw [Nat.add_mul_mod_self_left, Nat.mod_eq_of_lt hb]
      have hdiv : (b + 256 * natOfBytes bs) / 256 = natOfBytes bs := by
        rw [Nat.add_mul_div_left _ _ (by norm_num : 0 < 256),
            Nat.div_eq_of_lt hb, Nat.zero_add]
      simp only [List.length_cons, bytesOfNat, natOfBytes, hmod, hdiv]
      rw [ih (fun c hc => h c (List.mem_cons_of_mem b hc))]

theorem natOfBytes_lt (bs : List Nat) (h : ∀ b ∈ bs, b < 256) :
    natOfBytes bs < 256 ^ bs.length := by
  induction bs with
  | nil => simp [natOfBytes]
  | cons b bs ih =>
      have hb : b < 256 := h b (List.mem_cons_self b bs)
      have hm : natOfBytes bs < 256 ^ bs.length :=
        ih (fun c hc => h c (List.mem_cons_of_mem b hc))
      have hmul : 256 * (natOfBytes bs + 1) ≤ 256 * 256 ^ bs.length :=
        Nat.mul_le_mul_left 256 (by omega)
      simp only [natOfBytes, List.length_cons]
      calc b + 256 * natOfBytes bs < 256 * (natOfBytes bs + 1) := by omega
      _ ≤ 256 * 256 ^ bs.length := hmul
      _ = 256 ^ (bs.length + 1) := by rw [pow_succ, Nat.mul_comm]

theorem swap_bytes_lt (n x : Nat) : swap_bytes n x < 256 ^ n := by
  have h := natOfBytes_lt (bytesOfNat n x).reverse
    (fun b hb => bytesOfNat_mem_lt n x b (List.mem_reverse.mp hb))
  rwa [List.length_reverse, bytesOfNat_length] at h

theorem swap_bytes_swap_bytes (n x : Nat) (h : x < 256 ^ n) :
    swap_bytes n (swap_bytes n x) = x := by
  unfold swap_bytes
  have hlen : (bytesOfNat n x).reverse.length = n := by
    rw [List.length_reverse, bytesOfNat_length]
  have hmem : ∀ b ∈ (bytesOfNat n x).reverse, b < 256 :=
    fun b hb => bytesOfNat_mem_lt n x b (List.mem_reverse.mp hb)
  have hrt : bytesOfNat n (natOfBytes (bytesOfNat n x).reverse)
      = (bytesOfNat n x).reverse := by
    have := bytesOfNat_natOfBytes (bytesOfNat n x).reverse hmem
    rwa [hlen] at this
  rw [hrt, List.reverse_reverse, natOfBytes_bytesOfNat n x h]

theorem swap_bytes_zero (n : Nat) : swap_bytes n 0 = 0 := by
  have hrep : bytesOfNat n 0 = List.replicate n 0 := by
    induction n with
    | zero => rfl
    | succ n ih => simp [bytesOfNat, List.replicate, ih]
  have hval : ∀ m, natOfBytes (List.replicate m 0) = 0 := by
    intro m
    induction m with
    | zero => rfl
    | succ m ih => simp [List.replicate, natOfBytes, ih]
  rw [swap_bytes, hrep, List.reverse_replicate, hval]

theorem from_le_to_le (e : Endianness) (n v : Nat) (h : v < 256 ^ n) :
    from_le e n (to_le e n v) = v := by
  cases e with
  | big => exact swap_bytes_swap_bytes n v h
  | little => rfl

theorem from_be_to_be (e : Endianness) (n v : Nat) (h : v < 256 ^ n) :
    from_be e n (to_be e n v) = v := by
  cases e with
  | big => rfl
  | little => exact swap_bytes_swap_bytes n v h

theorem to_le_injOn (e : Endianness) (n a b : Nat) (ha : a < 256 ^ n)
    (hb : b < 256 ^ n) (h : to_le e n a = to_le e n b) : a = b := by
  cases e with
  | big =>
      have : swap_bytes n a = swap_bytes n b := h
      calc a = swap_bytes n (swap_bytes n a) := (swap_bytes_swap_bytes n a ha).symm
      _ = swap_bytes n (swap_bytes n b) := by rw [this]
      _ = b := swap_bytes_swap_bytes n b hb
  | little => exact h

/-! The claims. -/

/-- Claim C1: the big-endian wrapper's `from_native`/`to_native` should use
`to_be`/`from_be` and the little-endian wrapper's should use
`to_le`/`from_le`. The code violates the big-endian half: on a
little-endian host with a 2-byte integer and native value `0x1234`,
`BigEndian::from_native` stores raw `0x1234` (it calls `to_le`), while
`v.to_be()` is `0x3412`; likewise `BigEndian::from_raw(0x3412).to_native()`
returns `0x3412` (it calls `from_le`), while `from_be(0x3412)` is
`0x1234`. -/
theorem C1_bigendian_routes_through_le :
    (BigEndian.from_native .little 2 0x1234).to_raw = 0x1234 ∧
    to_be .little 2 0x1234 = 0x3412 ∧
    (BigEndian.from_native .little 2 0x1234).to_raw ≠ to_be .little 2 0x1234 ∧
    (BigEndian.from_raw 0x3412).to_native .little 2 = 0x3412 ∧
    from_be .little 2 0x3412 = 0x1234 ∧
    (BigEndian.from_raw 0x3412).to_native .little 2 ≠ from_be .little 2 0x3412 := by
  decide

/-- Claim C2: on a host whose order differs from the wrapper's declared
order, `to_native()` should be the byte-reversal of `to_raw()`. The code
violates it for the big-endian wrapper on a little-endian host: raw bytes
`0xDE, 0xAD` form the raw bit pattern `0xADDE` there, the byte-reversal of
`to_raw()` is `0xDEAD`, yet `to_native()` returns `0xADDE`. -/
theorem C2_no_byte_reversal_on_mismatched_host :
    (BigEndian.from_raw 0xADDE).to_native .little 2 = 0xADDE ∧
    swap_bytes 2 (BigEndian.from_raw 0xADDE).to_raw = 0xDEAD ∧
    (BigEndian.from_raw 0xADDE).to_native .little 2 ≠
      swap_bytes 2 (BigEndian.from_raw 0xADDE).to_raw := by
  decide

/-- Claim C3: on a host whose order equals the wrapper's declared order,
`to_raw()` should equal `to_native()`. The code violates it for the
big-endian wrapper on a big-endian host: for the wrapped raw `0x1234`,
`to_raw()` is `0x1234` while `to_native()` (which calls `from_le`, a byte
swap on a big-endian host) is `0x3412`. -/
theorem C3_matching_host_not_identity :
    (BigEndian.from_raw 0x1234).to_raw = 0x1234 ∧
    (BigEndian.from_raw 0x1234).to_native .big 2 = 0x3412 ∧
    (BigEndian.from_raw 0x1234).to_raw ≠ (BigEndian.from_raw 0x1234).to_native .big 2 := by
  decide

/-- Claim C4: for both wrappers and every raw bit pattern `r`,
`from_raw(r).to_raw() = r`; the pair performs no conversion and alters no
bits. Holds by the source: both functions are the plain field wrap and
field read. -/
theorem C4_raw_passthrough (r : Nat) :
    (BigEndian.from_raw r).to_raw = r ∧ (LittleEndian.from_raw r).to_raw = r :=
  ⟨rfl, rfl⟩

/-- Claim C5: for both wrappers, every host order, every width and every
native value `v` of that width, `from_native(v).to_native() = v`. Holds:
both wrappers pair `to_le` with `from_le`, which compose to the identity
on `n`-byte values. -/
theorem C5_native_roundtrip (e : Endianness) (n v : Nat) (h : v < 256 ^ n) :
    (BigEndian.from_native e n v).to_native e n = v ∧
    (LittleEndian.from_native e n v).to_native e n = v :=
  ⟨from_le_to_le e n v h, from_le_to_le e n v h⟩

/-- Witness for C5 at host big, width 2 bytes, v = 0x1234. -/
theorem C5_native_roundtrip_witness :
    (0x1234 : Nat) < 256 ^ 2 ∧
    ((BigEndian.from_native .big 2 0x1234).to_native .big 2 = 0x1234 ∧
     (LittleEndian.from_native .big 2 0x1234).to_native .big 2 = 0x1234) :=
  ⟨by decide, C5_native_roundtrip .big 2 0x1234 (by decide)⟩

/-- Claim C6: for both wrappers, `from_native(a) == from_native(b)` (the
equality of the source compares stored raw values) holds iff `a = b`.
Holds: `to_le` is injective on `n`-byte values. -/
theorem C6_eq_reflects_native_eq (e : Endianness) (n a b : Nat)
    (ha : a < 256 ^ n) (hb : b < 256 ^ n) :
    (BigEndian.beq (BigEndian.from_native e n a) (BigEndian.from_native e n b) = true
      ↔ a = b) ∧
    (LittleEndian.beq (LittleEndian.from_native e n a) (LittleEndian.from_native e n b) = true
      ↔ a = b) := by
  have key : to_le e n a = to_le e n b ↔ a = b := by
    constructor
    · exact to_le_injOn e n a b ha hb
    · intro h; rw [h]
  constructor
  · simpa [BigEndian.beq, BigEndian.from_native] using key
  · simpa [LittleEndian.beq, LittleEndian.from_native] using key

/-- Witness for C6 at host big, width 2 bytes, a = 0x12, b = 0x34. -/
theorem C6_eq_reflects_native_eq_witness :
    ((0x12 : Nat) < 256 ^ 2 ∧ (0x34 : Nat) < 256 ^ 2) ∧
    ((BigEndian.beq (BigEndian.from_native .big 2 0x12) (BigEndian.from_native .big 2 0x34) = true
       ↔ (0x12 : Nat) = 0x34) ∧
     (LittleEndian.beq (LittleEndian.from_native .big 2 0x12) (LittleEndian.from_native .big 2 0x34) = true
       ↔ (0x12 : Nat) = 0x34)) :=
  ⟨⟨by decide, by decide⟩,
   C6_eq_reflects_native_eq .big 2 0x12 0x34 (by decide) (by decide)⟩

/-- Claim C7: for both wrappers, every host order and every width, the
default value's native view is zero. Holds: the default is
`from_native(0)` and the round trip fixes `0`. -/
theorem C7_default_is_zero (e : Endianness) (n : Nat) :
    (BigEndian.deflt e n).to_native e n = 0 ∧
    (LittleEndian.deflt e n).to_native e n = 0 :=
  have h0 : (0 : Nat) < 256 ^ n := pow_pos (by norm_num) n
  ⟨from_le_to_le e n 0 h0, from_le_to_le e n 0 h0⟩

/-- Claim C8: each of `from_be`, `from_le`, `to_be`, `to_le` is the
identity when the named order agrees with the host order and the exact
byte-reversal (`swap_bytes`) when it does not, and
`from_be(to_be(x)) = x` and `from_le(to_le(x)) = x` for every `n`-byte
value `x`. -/
theorem C8_primitive_contract (e : Endianness) (n x : Nat) (h : x < 256 ^ n) :
    to_be .big n x = x ∧ from_be .big n x = x ∧
    to_le .little n x = x ∧ from_le .little n x = x ∧
    to_be .little n x = swap_bytes n x ∧ from_be .little n x = swap_bytes n x ∧
    to_le .big n x = swap_bytes n x ∧ from_le .big n x = swap_bytes n x ∧
    from_be e n (to_be e n x) = x ∧ from_le e n (to_le e n x) = x :=
  ⟨rfl, rfl, rfl, rfl, rfl, rfl, rfl, rfl,
   from_be_to_be e n x h, from_le_to_le e n x h⟩

/-- Witness for C8 at host little, width 2 bytes, x = 0xDEAD. -/
theorem C8_primitive_contract_witness :
    (0xDEAD : Nat) < 256 ^ 2 ∧
    (to_be .big 2 0xDEAD = 0xDEAD ∧ from_be .big 2 0xDEAD = 0xDEAD ∧
     to_le .little 2 0xDEAD = 0xDEAD ∧ from_le .little 2 0xDEAD = 0xDEAD ∧
     to_be .little 2 0xDEAD = swap_bytes 2 0xDEAD ∧
     from_be .little 2 0xDEAD = swap_bytes 2 0xDEAD ∧
     to_le .big 2 0xDEAD = swap_bytes 2 0xDEAD ∧
     from_le .big 2 0xDEAD = swap_bytes 2 0xDEAD ∧
     from_be .little 2 (to_be .little 2 0xDEAD) = 0xDEAD ∧
     from_le .little 2 (to_le .little 2 0xDEAD) = 0xDEAD) :=
  ⟨by decide, C8_primitive_contract .little 2 0xDEAD (by decide)⟩

/-- Claim C9: for both wrappers, the human-readable display of a wrapped
value equals the display of its `to_native()` view; concretely, on a
big-endian host the big-endian wrapper of raw `0x1234` displays its
native view `0x3412` (13330), not its raw bit pattern `0x1234` (4660). -/
theorem C9_display_shows_native (e : Endianness) (n : Nat)
    (x : BigEndian) (y : LittleEndian) :
    BigEndian.display e n x = toString (x.to_native e n) ∧
    LittleEndian.display e n y = toString (y.to_native e n) ∧
    BigEndian.display .big 2 (BigEndian.from_raw 0x1234) =
      toString ((BigEndian.from_raw 0x1234).to_native .big 2) ∧
    BigEndian.display .big 2 (BigEndian.from_raw 0x1234) ≠
      toString (BigEndian.from_raw 0x1234).to_raw :=
  ⟨rfl, rfl, rfl, by decide⟩

/-- Claim C10 (implicit): the two wrapper variants are extensionally
identical on every operation — a consequence, in the source, of both
variants routing `from_native`/`to_native` through `to_le`/`from_le`. -/
theorem C10_variants_extensionally_equal (e : Endianness) (n v r : Nat) :
    (BigEndian.from_native e n v).to_raw = (LittleEndian.from_native e n v).to_raw ∧
    (BigEndian.from_raw r).to_native e n = (LittleEndian.from_raw r).to_native e n ∧
    (BigEndian.from_raw r).to_raw = (LittleEndian.from_raw r).to_raw ∧
    (BigEndian.from_native e n v).to_native e n
      = (LittleEndian.from_native e n v).to_native e n ∧
    (BigEndian.deflt e n).to_raw = (LittleEndian.deflt e n).to_raw ∧
    BigEndian.display e n (BigEndian.from_raw r)
      = LittleEndian.display e n (LittleEndian.from_raw r) ∧
    BigEndian.beq (BigEndian.from_raw r) (BigEndian.from_raw v)
      = LittleEndian.beq (LittleEndian.from_raw r) (LittleEndian.from_raw v) :=
  ⟨rfl, rfl, rfl, rfl, rfl, rfl, rfl⟩
